import Mathlib

/-!
Verification of the crono-api energy-balance core.

Shallow embedding conventions:
- JavaScript numbers are modelled as exact rationals; float rounding and
  overflow-to-Infinity are not modelled, and NaN and Infinity appear only
  as parse failures, which is the only way the embedded code observes them.
- JavaScript objects that the code inspects with hasOwnProperty or optional
  chaining are modelled as association lists with String keys.
- JavaScript Maps are modelled as association lists with insertion-order
  update semantics.
- Effectful collaborators of scrapeEnergySummaryForDates (credential store,
  Kernel browser session, page contents) are modelled by an explicit
  environment value; the pure control flow around them follows the source.
-/

namespace CronoApi

/-- Loosely typed JavaScript values that the extraction code encounters. -/
inductive JSValue where
  | vNull : JSValue
  | vBool : Bool → JSValue
  | vNum : ℚ → JSValue
  | vStr : String → JSValue
deriving DecidableEq, Repr

/-- A loosely typed record (JS object), e.g. a nutrition-export row. -/
abbrev Record := List (String × JSValue)

/-- Property access: first binding of the key, none when absent. -/
def lookupRec (e : Record) (k : String) : Option JSValue :=
  (e.find? (fun p => p.1 == k)).map (fun p => p.2)

/-- JavaScript truthiness for the modelled values. -/
def jsTruthy : JSValue → Bool
  | .vNull => false
  | .vBool b => b
  | .vNum q => q != 0
  | .vStr s => s != ""

/-- Whitespace stripped by the JS trim used on numeric strings. -/
def jsWhitespace (c : Char) : Bool :=
  c == ' ' || c == '\t' || c == '\n' || c == '\r' || c == '\u000b' ||
  c == '\u000c' || c == ' ' || c == '﻿'

/-- Trim on the character list. -/
def jsTrimChars (cs : List Char) : List Char :=
  ((cs.dropWhile jsWhitespace).reverse.dropWhile jsWhitespace).reverse

/-- Model of String.prototype.trim. -/
def jsTrim (s : String) : String :=
  ⟨jsTrimChars s.data⟩

/-- Numeric value of one decimal digit character. -/
def digitVal (c : Char) : ℕ := c.toNat - 48

/-- Value of a list of decimal digit characters. -/
def natOfDigits (ds : List Char) : ℕ :=
  ds.foldl (fun n c => 10 * n + digitVal c) 0

/-- Hexadecimal digit value, none for other characters. -/
def hexVal (c : Char) : Option ℕ :=
  if c.isDigit then some (c.toNat - 48)
  else if 'a' ≤ c && c ≤ 'f' then some (c.toNat - 87)
  else if 'A' ≤ c && c ≤ 'F' then some (c.toNat - 55)
  else none

/-- Octal digit value, none for other characters. -/
def octVal (c : Char) : Option ℕ :=
  if '0' ≤ c && c ≤ '7' then some (c.toNat - 48) else none

/-- Binary digit value, none for other characters. -/
def binVal (c : Char) : Option ℕ :=
  if c == '0' || c == '1' then some (c.toNat - 48) else none

/-- Parse a non-empty digit string in the given radix, consuming everything. -/
def parseRadix (r : ℕ) (valf : Char → Option ℕ) (cs : List Char) : Option ℚ :=
  if cs.isEmpty then none
  else
    (cs.foldl
      (fun acc c =>
        match acc, valf c with
        | some n, some v => some (r * n + v)
        | _, _ => none)
      (some 0)).map (fun n => (n : ℚ))

/-- Parse an unsigned decimal literal, with optional fraction and exponent,
consuming the whole character list. -/
def parseDec (cs : List Char) : Option ℚ :=
  let ds := cs.takeWhile Char.isDigit
  let r1 := cs.dropWhile Char.isDigit
  let fr :=
    match r1 with
    | '.' :: r => (r.takeWhile Char.isDigit, r.dropWhile Char.isDigit)
    | _ => ([], r1)
  let fs := fr.1
  let r2 := fr.2
  if ds.isEmpty && fs.isEmpty then none
  else
    let base : ℚ := (natOfDigits ds : ℚ) + (natOfDigits fs : ℚ) / (10 : ℚ) ^ fs.length
    match r2 with
    | [] => some base
    | e :: r3 =>
      if e == 'e' || e == 'E' then
        let sg :=
          match r3 with
          | '+' :: r => ((1 : ℤ), r)
          | '-' :: r => ((-1 : ℤ), r)
          | r => ((1 : ℤ), r)
        let eds := sg.2.takeWhile Char.isDigit
        let r5 := sg.2.dropWhile Char.isDigit
        if eds.isEmpty || !r5.isEmpty then none
        else some (base * (10 : ℚ) ^ (sg.1 * (natOfDigits eds : ℤ)))
      else none

/-- Model of the JS Number(string) conversion restricted to finite results:
NaN and Infinity (including overflow, which exact rationals do not exhibit)
are mapped to none, which is how every caller in the source observes them
(each one guards with Number.isFinite). -/
def jsNumberOfString? (s : String) : Option ℚ :=
  let t := jsTrimChars s.data
  if t.isEmpty then some 0
  else
    match t with
    | '0' :: 'x' :: r => parseRadix 16 hexVal r
    | '0' :: 'X' :: r => parseRadix 16 hexVal r
    | '0' :: 'o' :: r => parseRadix 8 octVal r
    | '0' :: 'O' :: r => parseRadix 8 octVal r
    | '0' :: 'b' :: r => parseRadix 2 binVal r
    | '0' :: 'B' :: r => parseRadix 2 binVal r
    | _ =>
      let sg :=
        match t with
        | '-' :: r => ((-1 : ℚ), r)
        | '+' :: r => ((1 : ℚ), r)
        | r => ((1 : ℚ), r)
      if sg.2 = "Infinity".data then none
      else (parseDec sg.2).map (fun q => sg.1 * q)

/-- parseNumber from the source: finite native numbers pass through; a
non-blank string is handed to Number and kept when finite; everything else
is null. -/
def parseNumber : JSValue → Option ℚ
  | .vNum q => some q
  | .vStr s => if jsTrim s = "" then none else jsNumberOfString? s
  | _ => none

/-- parseNumber applied to an optionally present field. -/
def parseNumberField (e : Record) (k : String) : Option ℚ :=
  match lookupRec e k with
  | some v => parseNumber v
  | none => none

/-- getNumericField from the source: first alias key that is present and
parses to a finite number wins; a present but unparseable field is skipped. -/
def getNumericField (e : Record) : List String → Option (ℚ × String)
  | [] => none
  | k :: rest =>
    match lookupRec e k with
    | some v =>
      match parseNumber v with
      | some q => some (q, k)
      | none => getNumericField e rest
    | none => getNumericField e rest

/-- Model of Math.abs on the exact rationals, written so that concrete
inputs evaluate by kernel reduction. -/
def jsAbs (q : ℚ) : ℚ :=
  if q < 0 then -q else q

/-- The num helper of the in-page scrape code: unicode minus variants are
normalized to the ASCII minus, thousands separators are removed, and the
result is parsed with Number, kept only when finite. -/
def scrapeNum (s : String) : Option ℚ :=
  jsNumberOfString?
    ⟨(s.data.map (fun c => if c == '−' || c == '–' || c == '—' then '-' else c)).filter
      (fun c => c != ',')⟩

/-- One raw scraped day as produced by the in-page extraction: each metric is
a number or null. Field order: date, bmr, tef, exercise, trackerActivity,
baseline, energyBurned, energyBalance. -/
structure RawScrapedEntry where
  date : Option String
  bmr : Option ℚ
  tef : Option ℚ
  exercise : Option ℚ
  trackerActivity : Option ℚ
  baseline : Option ℚ
  energyBurned : Option ℚ
  energyBalance : Option ℚ
deriving DecidableEq, Repr

/-- Component magnitudes of a normalized scraped day. -/
structure ScrapedComponents where
  bmr : Option ℚ
  tef : Option ℚ
  exercise : Option ℚ
  trackerActivity : Option ℚ
  baseline : Option ℚ
deriving DecidableEq, Repr

/-- The three burn candidates of a normalized scraped day, after the
positivity and plausibility filters on the balance. -/
structure BurnCandidates where
  energyBurned : Option ℚ
  energyBalance : Option ℚ
  componentTotalWithBaseline : ℚ
deriving DecidableEq, Repr

/-- A normalized scraped day, output of normalizeScrapedEntry. -/
structure NormScraped where
  date : Option String
  components : ScrapedComponents
  energyBurned : Option ℚ
  energyBalance : Option ℚ
  missingComponents : List String
  hasAllCoreComponents : Bool
  componentTotalCore : ℚ
  componentTotalWithBaseline : ℚ
  burnCandidates : BurnCandidates
  resolvedBurnedSource : Option String
  resolvedBurnedTotal : ℚ
  componentTotal : ℚ
deriving DecidableEq, Repr

/-- The entries of the burnCandidates object that survive the finiteness and
positivity filter, in insertion order. -/
def burnCandidateList (bc : BurnCandidates) : List (String × ℚ) :=
  ([("energyBurned", bc.energyBurned),
    ("energyBalance", bc.energyBalance),
    ("componentTotalWithBaseline", some bc.componentTotalWithBaseline)]).filterMap
    (fun p =>
      match p.2 with
      | some v => if 0 < v then some (p.1, v) else none
      | none => none)

/-- Keep the current best candidate unless a strictly larger value follows:
the fold underlying the stable descending sort and head selection. -/
def pickStep (best x : String × ℚ) : String × ℚ :=
  if best.2 < x.2 then x else best

/-- Head of the stable descending sort by value: the first entry holding the
maximal value, matching the JS sort comparator on the filtered candidates. -/
def pickLargest : List (String × ℚ) → Option (String × ℚ)
  | [] => none
  | c :: rest => some (rest.foldl pickStep c)

/-- Core component total of a raw scraped day: sum of the absolute values,
with null read as 0. -/
def scrapedCtc (e : RawScrapedEntry) : ℚ :=
  jsAbs (e.bmr.getD 0) + jsAbs (e.tef.getD 0) + jsAbs (e.exercise.getD 0) +
    jsAbs (e.trackerActivity.getD 0)

/-- Component total with baseline of a raw scraped day. -/
def scrapedCtwb (e : RawScrapedEntry) : ℚ :=
  scrapedCtc e + jsAbs (e.baseline.getD 0)

/-- The balance magnitude admitted by the sign filter: present and positive
raw balance only. -/
def scrapedBalancePositive (e : RawScrapedEntry) : Option ℚ :=
  match e.energyBalance with
  | some r => if 0 < r then some (jsAbs r) else none
  | none => none

/-- The balance candidate after the plausibility filter against the
component total: discarded below 0.7 or above 1.8 times the total. -/
def scrapedBalanceCandidate (e : RawScrapedEntry) : Option ℚ :=
  match scrapedBalancePositive e with
  | some b =>
    if 0 < scrapedCtwb e then
      if b / scrapedCtwb e < 7 / 10 ∨ 9 / 5 < b / scrapedCtwb e then none else some b
    else some b
  | none => none

/-- The missing core components of a raw scraped day, in field order. -/
def scrapedMissing (e : RawScrapedEntry) : List String :=
  (if e.bmr.isNone then ["bmr"] else []) ++
  (if e.tef.isNone then ["tef"] else []) ++
  (if e.exercise.isNone then ["exercise"] else []) ++
  (if e.trackerActivity.isNone then ["trackerActivity"] else [])

/-- normalizeScrapedEntry from the source. -/
def normalizeScrapedEntry (e : RawScrapedEntry) : NormScraped :=
  let bc : BurnCandidates :=
    ⟨e.energyBurned.map jsAbs, scrapedBalanceCandidate e, scrapedCtwb e⟩
  let resolved := pickLargest (burnCandidateList bc)
  ⟨match e.date with
    | some s => if s = "" then none else some s
    | none => none,
   ⟨e.bmr.map jsAbs, e.tef.map jsAbs, e.exercise.map jsAbs,
    e.trackerActivity.map jsAbs, e.baseline.map jsAbs⟩,
   e.energyBurned.map jsAbs, e.energyBalance,
   scrapedMissing e, (scrapedMissing e).isEmpty, scrapedCtc e, scrapedCtwb e, bc,
   resolved.map (fun p => p.1),
   (match resolved with
    | some p => p.2
    | none => 0),
   scrapedCtwb e⟩

/-- Alias lists of the four required burn components, in the fixed source
order of BURN_COMPONENT_KEYS. -/
def coreKeyTable : List (String × List String) :=
  [("bmr",
    ["BMR (kcal)", "Basal Metabolic Rate (kcal)", "Resting Metabolic Rate (kcal)",
     "RMR (kcal)"]),
   ("tef",
    ["TEF (kcal)", "Thermic Effect of Food (kcal)", "Thermal Effect of Food (kcal)"]),
   ("exercise",
    ["Exercise (kcal)", "Exercises (kcal)", "Active Exercise (kcal)", "Workout (kcal)"]),
   ("trackerActivity",
    ["Tracker Activity (kcal)", "Tracker Calories (kcal)", "Daily Activity (kcal)",
     "Activity (kcal)"])]

/-- Alias lists of the optional baseline component. -/
def optionalKeyTable : List (String × List String) :=
  [("baseline",
    ["Baseline (kcal)", "Baseline Activity (kcal)", "Base (kcal)",
     "Resting Expenditure (kcal)"])]

/-- One extracted component: magnitude, raw signed value and matched alias. -/
structure CompInfo where
  value : ℚ
  rawValue : ℚ
  sourceKey : String
deriving DecidableEq, Repr

/-- Walk a component table in order, collecting found components, missing
component names, the magnitude total and the raw signed total. -/
def collectComponents (e : Record) :
    List (String × List String) → List (String × CompInfo) × List String × ℚ × ℚ
  | [] => ([], [], 0, 0)
  | (name, keys) :: rest =>
    let acc := collectComponents e rest
    match getNumericField e keys with
    | some vk =>
      ((name, ⟨jsAbs vk.1, vk.1, vk.2⟩) :: acc.1, acc.2.1, jsAbs vk.1 + acc.2.2.1,
        vk.1 + acc.2.2.2)
    | none => (acc.1, name :: acc.2.1, acc.2.2.1, acc.2.2.2)

/-- Result of extractBurnedComponents. -/
structure BurnComponents where
  hasAny : Bool
  hasAll : Bool
  total : ℚ
  rawTotal : ℚ
  components : List (String × CompInfo)
  missingComponents : List String
  missingOptionalComponents : List String
deriving DecidableEq, Repr

/-- extractBurnedComponents from the source: the four required components and
the optional baseline all feed the totals; only required ones feed
missingComponents. -/
def extractBurnedComponents (e : Record) : BurnComponents :=
  let core := collectComponents e coreKeyTable
  let opt := collectComponents e optionalKeyTable
  ⟨!(core.1 ++ opt.1).isEmpty, core.2.1.isEmpty,
   core.2.2.1 + opt.2.2.1, core.2.2.2 + opt.2.2.2,
   core.1 ++ opt.1, core.2.1, opt.2.1⟩

/-- inferBurnedCalories from the source: the first matching direct burned
alias, tagged with a source label naming the matched column. -/
def inferBurnedCalories (e : Record) : Option (ℚ × String) :=
  (getNumericField e
    ["Energy Burned (kcal)", "Calories Burned (kcal)", "Expenditure (kcal)",
     "Total Burned (kcal)", "Burned (kcal)", "TDEE (kcal)",
     "Total Energy Expenditure (kcal)"]).map
    (fun p => (p.1, "entry:" ++ p.2))

/-- Association-list lookup, modelling Map.prototype.get. -/
def lookupA {α : Type} (m : List (String × α)) (k : String) : Option α :=
  (m.find? (fun p => p.1 == k)).map (fun p => p.2)

/-- Association-list update, modelling Map.prototype.set. -/
def setA {α : Type} (m : List (String × α)) (k : String) (v : α) : List (String × α) :=
  match m with
  | [] => [(k, v)]
  | p :: rest => if p.1 == k then (k, v) :: rest else p :: setA rest k v

/-- Per-date exercise aggregate, as accumulated by aggregateBurnedByDate. -/
structure Agg where
  burnedRawCalories : ℚ
  burnedCalories : ℚ
  entries : ℕ
  components : List (String × ℚ)
deriving DecidableEq, Repr

/-- The date of an exercise row, when it is a non-empty string. -/
def exDate (e : Record) : Option String :=
  match lookupRec e "date" with
  | some (.vStr s) => if s = "" then none else some s
  | _ => none

/-- Raw signed calories of an exercise row, defaulting to 0. -/
def exRaw (e : Record) : ℚ :=
  (parseNumberField e "caloriesBurned").getD 0

/-- Exercise name of a row, defaulting to Unknown. -/
def exName (e : Record) : String :=
  match lookupRec e "exercise" with
  | some (.vStr s) => s
  | _ => "Unknown"

/-- One step of the aggregateBurnedByDate loop. -/
def aggStep (m : List (String × Agg)) (e : Record) : List (String × Agg) :=
  match exDate e with
  | none => m
  | some d =>
    let raw := exRaw e
    let ex := (lookupA m d).getD ⟨0, 0, 0, []⟩
    setA m d
      ⟨ex.burnedRawCalories + raw, ex.burnedCalories + jsAbs raw, ex.entries + 1,
       setA ex.components (exName e) ((lookupA ex.components (exName e)).getD 0 + jsAbs raw)⟩

/-- aggregateBurnedByDate from the source. -/
def aggregateBurnedByDate (exs : List Record) : List (String × Agg) :=
  exs.foldl aggStep []

/-- mapEnergyScrapeByDate from the source: index normalized scraped entries
by their non-empty string date, later entries overriding earlier ones. -/
def mapEnergyScrapeByDate (entries : List NormScraped) : List (String × NormScraped) :=
  entries.foldl
    (fun m n =>
      match n.date with
      | some s => if s = "" then m else setA m s n
      | none => m)
    []

/-- The value of the per-day date binding: the date field when truthy,
otherwise null. -/
def dateOrNull (e : Record) : Option JSValue :=
  match lookupRec e "date" with
  | some v => if jsTruthy v then some v else none
  | none => none

/-- Map lookup keyed by an optional JS value: only a truthy string key can
hit, matching Map.get against string-keyed maps. -/
def mapGetD {α : Type} (m : List (String × α)) : Option JSValue → Option α
  | some (.vStr s) => lookupA m s
  | _ => none

/-- The scraped entry consulted for a nutrition row. -/
def scrapedFor (e : Record) (sM : List (String × NormScraped)) : Option NormScraped :=
  mapGetD sM (dateOrNull e)

/-- The exercise aggregate consulted for a nutrition row. -/
def aggFor (e : Record) (aggM : List (String × Agg)) : Option Agg :=
  mapGetD aggM (dateOrNull e)

/-- Names of the four required burn components, the initial value of
missingBurnComponents. -/
def defaultMissing : List String := ["bmr", "tef", "exercise", "trackerActivity"]

/-- The burned figure, its raw counterpart, the provenance tag and the
missing components chosen by one reconciliation branch. -/
structure Choice where
  burned : Option ℚ
  burnedRaw : Option ℚ
  source : String
  missing : List String
deriving DecidableEq, Repr

/-- Reconciliation tiers 4 to 7: export components, inferred burned field,
exercise aggregate, and the failure tag. -/
def laterTiers (comps : BurnComponents) (inferred : Option (ℚ × String))
    (agg : Option Agg) : Choice :=
  if comps.hasAny then
    ⟨some comps.total, some comps.rawTotal,
     if comps.hasAll then "nutrition_components_complete" else "nutrition_components_partial",
     comps.missingComponents⟩
  else
    match inferred with
    | some p => ⟨some p.1, some p.1, p.2, defaultMissing⟩
    | none =>
      match agg with
      | some a =>
        ⟨some a.burnedCalories, some a.burnedRawCalories, "exercise_export_abs",
         ["bmr", "tef"]⟩
      | none => ⟨none, none, "none", defaultMissing⟩

/-- The full selection chain of the per-day reconciliation: scraped direct
burned figure, scraped complete components, scraped partial components, then
the later tiers. -/
def chooseBurn (scraped : Option NormScraped) (comps : BurnComponents)
    (inferred : Option (ℚ × String)) (agg : Option Agg) : Choice :=
  match scraped with
  | some n =>
    match n.energyBurned with
    | some v => ⟨some (jsAbs v), some v, "scrape_energy_burned_total", n.missingComponents⟩
    | none =>
      if n.hasAllCoreComponents = true ∧ 0 < n.componentTotalWithBaseline then
        ⟨some n.componentTotalWithBaseline, some n.componentTotalWithBaseline,
         "scrape_components_complete", []⟩
      else if 0 < n.componentTotalWithBaseline then
        ⟨some n.componentTotalWithBaseline, some n.componentTotalWithBaseline,
         "scrape_components_partial", n.missingComponents⟩
      else laterTiers comps inferred agg
  | none => laterTiers comps inferred agg

/-- One reconciled day of the weekly-average-deficit route. The heterogeneous
burnedBreakdown diagnostic object is not modelled; every other output field
is. -/
structure DayResult where
  date : Option JSValue
  completed : Bool
  consumedCalories : ℚ
  burnedCalories : ℚ
  burnedRawCalories : ℚ
  burnedSource : String
  missingBurnComponents : List String
  netCalories : ℚ
  status : String
deriving DecidableEq, Repr

/-- The per-day reconciliation of the weekly-average-deficit route for one
completed nutrition entry. -/
def reconcileDay (e : Record) (sM : List (String × NormScraped))
    (aggM : List (String × Agg)) : DayResult :=
  let date := dateOrNull e
  let consumed := (parseNumberField e "calories").getD 0
  let c := chooseBurn (scrapedFor e sM) (extractBurnedComponents e)
    (inferBurnedCalories e) (aggFor e aggM)
  let burnedFinal := c.burned.getD 0
  let net := consumed - burnedFinal
  ⟨date, true, consumed, burnedFinal, c.burnedRaw.getD 0, c.source, c.missing, net,
   if net < 0 then "deficit" else if 0 < net then "surplus" else "at_target"⟩

/-- All reconciled days of a request, in input order. -/
def weeklyPerDay (completed : List Record) (sM : List (String × NormScraped))
    (aggM : List (String × Agg)) : List DayResult :=
  completed.map (fun e => reconcileDay e sM aggM)

/-- The 503 failure raised when reconciliation found no burn source. -/
structure RangeError where
  message : String
  daysWithoutBurnSource : List JSValue
deriving DecidableEq, Repr

/-- Per-component tallies of missing required components. -/
structure MissingCounts where
  bmr : ℕ
  tef : ℕ
  exercise : ℕ
  trackerActivity : ℕ
deriving DecidableEq, Repr

/-- The range summary of the weekly-average-deficit route. -/
structure RangeSummary where
  daysUsed : ℕ
  consumedTotal : ℚ
  burnedTotal : ℚ
  burnedRawTotal : ℚ
  netTotal : ℚ
  averageNetCaloriesPerDay : ℚ
  averageDeficitPerDay : ℚ
  averageSurplusPerDay : ℚ
  daysWithCompleteComponents : ℕ
  daysWithPartialComponents : ℕ
  daysUsingFallback : ℕ
  missingComponentCounts : MissingCounts
  dataQuality : String
  burnSourceCounts : List (String × ℕ)
  perDay : List DayResult
deriving DecidableEq, Repr

/-- Provenance tags counted as complete burn components. -/
def completeBurnSources : List String :=
  ["scrape_components_complete", "scrape_energy_burned_total",
   "nutrition_components_complete"]

/-- Provenance tags counted as partial burn components. -/
def partialBurnSources : List String :=
  ["scrape_components_partial", "nutrition_components_partial"]

/-- Occurrences of one component name across all missingBurnComponents lists. -/
def missingCount (perDay : List DayResult) (c : String) : ℕ :=
  (perDay.map (fun d => d.missingBurnComponents.count c)).sum

/-- The truthy dates of reconciled days whose burnedSource is none: the
value thrown as daysWithoutBurnSource. A day whose date is null is dropped
here by the filter on truthiness. -/
def offendingDates (perDay : List DayResult) : List JSValue :=
  (perDay.filter (fun dd => dd.burnedSource == "none")).filterMap (fun dd => dd.date)

/-- The totals, averages and diagnostics of the success branch of the
weekly-average-deficit route. -/
def summarize (perDay : List DayResult) : RangeSummary :=
  let daysUsed := perDay.length
  let consumedTotal := perDay.foldl (fun s dd => s + dd.consumedCalories) 0
  let burnedTotal := perDay.foldl (fun s dd => s + dd.burnedCalories) 0
  let burnedRawTotal := perDay.foldl (fun s dd => s + dd.burnedRawCalories) 0
  let netTotal := consumedTotal - burnedTotal
  let avg := if daysUsed = 0 then 0 else netTotal / (daysUsed : ℚ)
  let dC := (perDay.filter (fun dd => completeBurnSources.contains dd.burnedSource)).length
  let dP := (perDay.filter (fun dd => partialBurnSources.contains dd.burnedSource)).length
  let dF := (perDay.filter
    (fun dd => !completeBurnSources.contains dd.burnedSource &&
      !partialBurnSources.contains dd.burnedSource)).length
  ⟨daysUsed, consumedTotal, burnedTotal, burnedRawTotal, netTotal, avg,
   (if avg < 0 then jsAbs avg else 0), (if 0 < avg then avg else 0), dC, dP, dF,
   ⟨missingCount perDay "bmr", missingCount perDay "tef",
    missingCount perDay "exercise", missingCount perDay "trackerActivity"⟩,
   (if dC = daysUsed ∧ 0 < daysUsed then "component_complete"
    else if 0 < dP ∨ 0 < dF then "component_incomplete"
    else "no_completed_days"),
   perDay.foldl
     (fun m dd => setA m dd.burnedSource ((lookupA m dd.burnedSource).getD 0 + 1)) [],
   perDay⟩

/-- The aggregation stage of the weekly-average-deficit route, applied after
the caller filtered to completed, not-today entries: reconcile every day,
fail when a day with a truthy date has no burn source, else fold the totals,
averages and diagnostics. -/
def weeklyAggregate (completed : List Record) (sM : List (String × NormScraped))
    (aggM : List (String × Agg)) : Except RangeError RangeSummary :=
  let perDay := weeklyPerDay completed sM aggM
  if (offendingDates perDay).isEmpty then .ok (summarize perDay)
  else
    .error
      ⟨"Unable to determine burned calories for one or more completed days.",
       offendingDates perDay⟩

/-- The exact YYYY-MM-DD pattern required of requested dates. -/
def isDateFmt (s : String) : Bool :=
  match s.data with
  | [a, b, c, d, '-', e, f, '-', g, h] =>
    a.isDigit && b.isDigit && c.isDigit && d.isDigit && e.isDigit && f.isDigit &&
    g.isDigit && h.isDigit
  | _ => false

/-- One step of the Set-building loop: trimmed strings matching the date
pattern are appended unless already present. -/
def uniqStep (acc : List String) (v : JSValue) : List String :=
  match v with
  | .vStr t =>
    if isDateFmt (jsTrim t) && !acc.contains (jsTrim t) then acc ++ [jsTrim t]
    else acc
  | _ => acc

/-- The insertion-ordered set of valid trimmed date strings. -/
def uniqDates (dates : List JSValue) : List String :=
  dates.foldl uniqStep []

/-- Insert into a descending list, before the first smaller element. -/
def insertDesc (s : String) : List String → List String
  | [] => [s]
  | t :: ts => if t < s then s :: t :: ts else t :: insertDesc s ts

/-- Descending sort, modelling the comparator that orders larger strings
first. -/
def sortDesc : List String → List String
  | [] => []
  | t :: ts => insertDesc t (sortDesc ts)

/-- normalizeDates from the source: keep strings whose trim matches the date
pattern, drop duplicates, sort descending. -/
def normalizeDates (dates : List JSValue) : List String :=
  sortDesc (uniqDates dates)

/-- The effectful collaborators of scrapeEnergySummaryForDates, modelled as
data: the credential fetch outcome, whether login and the page automation
succeed, and the metrics the page shows for each visited date. -/
structure ScrapeEnv where
  credentials : Except String (String × String × String)
  loginOk : Bool
  scrapeOk : Bool
  extract : String → RawScrapedEntry

/-- Observable outcome of one scrape invocation: its return value or error,
and which external effects were performed. -/
structure ScrapeOutcome where
  result : Except String (List NormScraped)
  credentialsLoaded : Bool
  browserCreated : Bool

/-- The raw entry pushed for one visited date: the extracted metrics tagged
with the requested date. -/
def rawEntryFor (env : ScrapeEnv) (d : String) : RawScrapedEntry :=
  ⟨some d, (env.extract d).bmr, (env.extract d).tef, (env.extract d).exercise,
   (env.extract d).trackerActivity, (env.extract d).baseline,
   (env.extract d).energyBurned, (env.extract d).energyBalance⟩

/-- scrapeEnergySummaryForDates from the source: normalize the requested
dates first and return immediately on an empty list; otherwise load
credentials, create a browser session, log in, run the per-day scrape over
the normalized dates and normalize each pushed entry. -/
def scrapeEnergySummaryForDates (dates : List JSValue) (env : ScrapeEnv) :
    ScrapeOutcome :=
  let nd := normalizeDates dates
  if nd.isEmpty then ⟨.ok [], false, false⟩
  else
    match env.credentials with
    | .error msg => ⟨.error msg, true, false⟩
    | .ok _ =>
      if !env.loginOk then
        ⟨.error "Cronometer login failed during scrape", true, true⟩
      else if !env.scrapeOk then
        ⟨.error "Energy scrape automation failed", true, true⟩
      else ⟨.ok ((nd.map (rawEntryFor env)).map normalizeScrapedEntry), true, true⟩

/-! Verification-side views of the exercise aggregation, used to state the
per-date sums the spec describes. -/

/-- The diagnostic-free projection of an aggregate: raw sum, absolute sum
and row count. -/
def aggProj (a : Agg) : ℚ × ℚ × ℕ :=
  (a.burnedRawCalories, a.burnedCalories, a.entries)

/-- The projected aggregate already stored for a date, zero when absent. -/
def aggBase (m : List (String × Agg)) (d : String) : ℚ × ℚ × ℕ :=
  ((lookupA m d).map aggProj).getD (0, 0, 0)

/-- The exercise rows carrying the given date. -/
def rowsFor (d : String) (exs : List Record) : List Record :=
  exs.filter (fun x => exDate x == some d)

/-- Signed sum of the calories of the rows for a date. -/
def sumRaw (d : String) (exs : List Record) : ℚ :=
  ((rowsFor d exs).map exRaw).sum

/-- Sum of the absolute calories of the rows for a date. -/
def sumAbs (d : String) (exs : List Record) : ℚ :=
  ((rowsFor d exs).map (fun x => jsAbs (exRaw x))).sum

/-- Number of rows for a date. -/
def cnt (d : String) (exs : List Record) : ℕ :=
  (rowsFor d exs).length

/-! Concrete inputs instantiating the claim theorems. -/

/-- A scraped day whose only positive burn candidate is the component total. -/
def esC5 : RawScrapedEntry :=
  ⟨some "2024-01-05", some 1600, some 180, none, none, none, none, none⟩

/-- A scraped day with component total 2000 and implausibly large balance
4500 (ratio 2.25). -/
def esC4 : RawScrapedEntry :=
  ⟨some "2024-01-02", some 1500, some 200, some 200, some 100, none, none, some 4500⟩

/-- A scraped day with component total 2000 and plausible balance 2400. -/
def esC4b : RawScrapedEntry :=
  ⟨some "2024-01-02", some 1500, some 200, some 200, some 100, none, none, some 2400⟩

/-- A scraped day whose page reported a negative Energy Burned number. -/
def esC8 : RawScrapedEntry :=
  ⟨some "2024-01-02", none, none, none, none, none, some (-500), none⟩

/-- The nutrition-export row paired with esC8. -/
def eC8 : Record :=
  [("date", JSValue.vStr "2024-01-02"), ("calories", JSValue.vNum 2000)]

/-- Scrape map holding the normalized esC8. -/
def sMC8 : List (String × NormScraped) :=
  mapEnergyScrapeByDate [normalizeScrapedEntry esC8]

/-- A scraped day that reported an Energy Burned of exactly 0. -/
def esC9 : RawScrapedEntry :=
  ⟨some "2024-01-02", none, none, none, none, none, some 0, none⟩

/-- The nutrition-export row paired with esC9. -/
def eC9 : Record :=
  [("date", JSValue.vStr "2024-01-02"), ("calories", JSValue.vNum 1800)]

/-- Scrape map holding the normalized esC9. -/
def sMC9 : List (String × NormScraped) :=
  mapEnergyScrapeByDate [normalizeScrapedEntry esC9]

/-- A scraped day with direct Energy Burned 500 and nothing else. -/
def esC1 : RawScrapedEntry :=
  ⟨some "2024-01-02", none, none, none, none, none, some 500, none⟩

/-- Scrape map holding the normalized esC1. -/
def sMC1 : List (String × NormScraped) :=
  mapEnergyScrapeByDate [normalizeScrapedEntry esC1]

/-- An export row with a complete component set totalling 480 kcal. -/
def eC1 : Record :=
  [("date", JSValue.vStr "2024-01-02"), ("calories", JSValue.vNum 2200),
   ("BMR (kcal)", JSValue.vNum 300), ("TEF (kcal)", JSValue.vNum 30),
   ("Exercise (kcal)", JSValue.vNum 100), ("Tracker Activity (kcal)", JSValue.vNum 50)]

/-- Exercise rows of the C6 instance: -250 and -100 on the same date. -/
def exsC6 : List Record :=
  [[("date", JSValue.vStr "2024-01-03"), ("caloriesBurned", JSValue.vNum (-250)),
    ("exercise", JSValue.vStr "Run")],
   [("date", JSValue.vStr "2024-01-03"), ("caloriesBurned", JSValue.vNum (-100)),
    ("exercise", JSValue.vStr "Walk")]]

/-- The nutrition-export row of the C6 instance: a date and nothing else. -/
def eC6 : Record := [("date", JSValue.vStr "2024-01-03")]

/-- A completed nutrition row with no date and no burn data at all. -/
def cexC2 : Record := [("Completed", JSValue.vStr "true")]

/-- A completed nutrition row with a date but no burn data. -/
def eW2 : Record := [("date", JSValue.vStr "2024-02-01"), ("Completed", JSValue.vStr "true")]

/-- A scrape environment whose collaborators would all succeed. -/
def envC10 : ScrapeEnv :=
  ⟨.ok ("key", "user", "pass"), true, true,
   fun _ => ⟨none, none, none, none, none, none, none, none⟩⟩

/-! Helper lemmas. -/

@[simp] theorem normalize_burnCandidates (e : RawScrapedEntry) :
    (normalizeScrapedEntry e).burnCandidates =
      ⟨e.energyBurned.map jsAbs, scrapedBalanceCandidate e, scrapedCtwb e⟩ := rfl

@[simp] theorem normalize_ctwb (e : RawScrapedEntry) :
    (normalizeScrapedEntry e).componentTotalWithBaseline = scrapedCtwb e := rfl

@[simp] theorem normalize_energyBurned (e : RawScrapedEntry) :
    (normalizeScrapedEntry e).energyBurned = e.energyBurned.map jsAbs := rfl

@[simp] theorem normalize_missing (e : RawScrapedEntry) :
    (normalizeScrapedEntry e).missingComponents = scrapedMissing e := rfl

@[simp] theorem normalize_hasAll (e : RawScrapedEntry) :
    (normalizeScrapedEntry e).hasAllCoreComponents = (scrapedMissing e).isEmpty := rfl

theorem jsAbs_of_pos {q : ℚ} (h : 0 < q) : jsAbs q = q := by
  unfold jsAbs
  rw [if_neg (not_lt.mpr h.le)]

theorem reconcileDay_burnedSource (e : Record) (sM : List (String × NormScraped))
    (aggM : List (String × Agg)) :
    (reconcileDay e sM aggM).burnedSource =
      (chooseBurn (scrapedFor e sM) (extractBurnedComponents e)
        (inferBurnedCalories e) (aggFor e aggM)).source := rfl

theorem reconcileDay_burnedCalories (e : Record) (sM : List (String × NormScraped))
    (aggM : List (String × Agg)) :
    (reconcileDay e sM aggM).burnedCalories =
      (chooseBurn (scrapedFor e sM) (extractBurnedComponents e)
        (inferBurnedCalories e) (aggFor e aggM)).burned.getD 0 := rfl

theorem reconcileDay_burnedRawCalories (e : Record) (sM : List (String × NormScraped))
    (aggM : List (String × Agg)) :
    (reconcileDay e sM aggM).burnedRawCalories =
      (chooseBurn (scrapedFor e sM) (extractBurnedComponents e)
        (inferBurnedCalories e) (aggFor e aggM)).burnedRaw.getD 0 := rfl

theorem reconcileDay_missing (e : Record) (sM : List (String × NormScraped))
    (aggM : List (String × Agg)) :
    (reconcileDay e sM aggM).missingBurnComponents =
      (chooseBurn (scrapedFor e sM) (extractBurnedComponents e)
        (inferBurnedCalories e) (aggFor e aggM)).missing := rfl

theorem reconcileDay_consumed (e : Record) (sM : List (String × NormScraped))
    (aggM : List (String × Agg)) :
    (reconcileDay e sM aggM).consumedCalories =
      (parseNumberField e "calories").getD 0 := rfl

theorem reconcileDay_net (e : Record) (sM : List (String × NormScraped))
    (aggM : List (String × Agg)) :
    (reconcileDay e sM aggM).netCalories =
      (parseNumberField e "calories").getD 0 -
        (chooseBurn (scrapedFor e sM) (extractBurnedComponents e)
          (inferBurnedCalories e) (aggFor e aggM)).burned.getD 0 := rfl

theorem reconcileDay_date (e : Record) (sM : List (String × NormScraped))
    (aggM : List (String × Agg)) :
    (reconcileDay e sM aggM).date = dateOrNull e := rfl

theorem chooseBurn_tier1 (n : NormScraped) (v : ℚ) (comps : BurnComponents)
    (inferred : Option (ℚ × String)) (agg : Option Agg)
    (hv : n.energyBurned = some v) :
    chooseBurn (some n) comps inferred agg =
      ⟨some (jsAbs v), some v, "scrape_energy_burned_total", n.missingComponents⟩ := by
  unfold chooseBurn
  dsimp only
  rw [hv]

theorem chooseBurn_tier2 (n : NormScraped) (comps : BurnComponents)
    (inferred : Option (ℚ × String)) (agg : Option Agg)
    (hv : n.energyBurned = none) (hall : n.hasAllCoreComponents = true)
    (hpos : 0 < n.componentTotalWithBaseline) :
    chooseBurn (some n) comps inferred agg =
      ⟨some n.componentTotalWithBaseline, some n.componentTotalWithBaseline,
       "scrape_components_complete", []⟩ := by
  unfold chooseBurn
  dsimp only
  rw [hv]
  dsimp only
  rw [if_pos ⟨hall, hpos⟩]

theorem chooseBurn_tier3 (n : NormScraped) (comps : BurnComponents)
    (inferred : Option (ℚ × String)) (agg : Option Agg)
    (hv : n.energyBurned = none) (hall : n.hasAllCoreComponents = false)
    (hpos : 0 < n.componentTotalWithBaseline) :
    chooseBurn (some n) comps inferred agg =
      ⟨some n.componentTotalWithBaseline, some n.componentTotalWithBaseline,
       "scrape_components_partial", n.missingComponents⟩ := by
  unfold chooseBurn
  dsimp only
  rw [hv]
  dsimp only
  rw [if_neg (fun hand => by rw [hall] at hand; exact Bool.false_ne_true hand.1),
    if_pos hpos]

theorem chooseBurn_noScrape (comps : BurnComponents)
    (inferred : Option (ℚ × String)) (agg : Option Agg) :
    chooseBurn none comps inferred agg = laterTiers comps inferred agg := rfl

theorem chooseBurn_scrapeUnusable (n : NormScraped) (comps : BurnComponents)
    (inferred : Option (ℚ × String)) (agg : Option Agg)
    (hv : n.energyBurned = none) (hle : n.componentTotalWithBaseline ≤ 0) :
    chooseBurn (some n) comps inferred agg = laterTiers comps inferred agg := by
  unfold chooseBurn
  dsimp only
  rw [hv]
  dsimp only
  rw [if_neg (fun hand => absurd hand.2 (not_lt.mpr hle)), if_neg (not_lt.mpr hle)]

theorem laterTiers_components (comps : BurnComponents)
    (inferred : Option (ℚ × String)) (agg : Option Agg) (h : comps.hasAny = true) :
    laterTiers comps inferred agg =
      ⟨some comps.total, some comps.rawTotal,
       if comps.hasAll then "nutrition_components_complete"
       else "nutrition_components_partial",
       comps.missingComponents⟩ := by
  unfold laterTiers
  rw [if_pos h]

theorem laterTiers_inferred (comps : BurnComponents) (b : ℚ) (src : String)
    (inferred : Option (ℚ × String)) (agg : Option Agg)
    (h : comps.hasAny = false) (hi : inferred = some (b, src)) :
    laterTiers comps inferred agg = ⟨some b, some b, src, defaultMissing⟩ := by
  unfold laterTiers
  rw [if_neg (by rw [h]; exact Bool.false_ne_true), hi]

theorem laterTiers_agg (comps : BurnComponents) (a : Agg)
    (inferred : Option (ℚ × String)) (agg : Option Agg)
    (h : comps.hasAny = false) (hi : inferred = none) (ha : agg = some a) :
    laterTiers comps inferred agg =
      ⟨some a.burnedCalories, some a.burnedRawCalories, "exercise_export_abs",
       ["bmr", "tef"]⟩ := by
  unfold laterTiers
  rw [if_neg (by rw [h]; exact Bool.false_ne_true), hi, ha]

theorem laterTiers_none (comps : BurnComponents)
    (inferred : Option (ℚ × String)) (agg : Option Agg)
    (h : comps.hasAny = false) (hi : inferred = none) (ha : agg = none) :
    laterTiers comps inferred agg = ⟨none, none, "none", defaultMissing⟩ := by
  unfold laterTiers
  rw [if_neg (by rw [h]; exact Bool.false_ne_true), hi, ha]

theorem foldl_pickStep_mem (l : List (String × ℚ)) :
    ∀ c : String × ℚ, l.foldl pickStep c = c ∨ l.foldl pickStep c ∈ l := by
  induction l with
  | nil => intro c; left; rfl
  | cons x xs ih =>
    intro c
    simp only [List.foldl_cons]
    rcases ih (pickStep c x) with h | h
    · rw [h]
      unfold pickStep
      split
      · right; exact List.mem_cons_self x xs
      · left; rfl
    · right; exact List.mem_cons_of_mem x h

theorem foldl_pickStep_ge (l : List (String × ℚ)) :
    ∀ c : String × ℚ,
      c.2 ≤ (l.foldl pickStep c).2 ∧ ∀ x ∈ l, x.2 ≤ (l.foldl pickStep c).2 := by
  induction l with
  | nil =>
    intro c
    exact ⟨le_refl _, by intro x hx; cases hx⟩
  | cons x xs ih =>
    intro c
    simp only [List.foldl_cons]
    obtain ⟨h1, h2⟩ := ih (pickStep c x)
    have hc : c.2 ≤ (pickStep c x).2 := by
      unfold pickStep; split
      · exact le_of_lt (by assumption)
      · exact le_refl _
    have hx : x.2 ≤ (pickStep c x).2 := by
      unfold pickStep; split
      · exact le_refl _
      · exact le_of_not_lt (by assumption)
    refine ⟨hc.trans h1, ?_⟩
    intro y hy
    rcases List.mem_cons.mp hy with h | h
    · rw [h]; exact hx.trans h1
    · exact h2 y h

theorem collect_missing_subset (e : Record) :
    ∀ table : List (String × List String),
      ∀ c ∈ (collectComponents e table).2.1, c ∈ table.map Prod.fst := by
  intro table
  induction table with
  | nil => intro c hc; cases hc
  | cons p rest ih =>
    intro c hc
    obtain ⟨name, keys⟩ := p
    simp only [collectComponents] at hc
    cases hf : getNumericField e keys with
    | some vk =>
      rw [hf] at hc
      exact List.mem_cons_of_mem _ (ih c hc)
    | none =>
      rw [hf] at hc
      rcases List.mem_cons.mp hc with h | h
      · rw [h]; exact List.mem_cons_self _ _
      · exact List.mem_cons_of_mem _ (ih c h)

/-! Claim theorems. -/

/-- C7. In both per-day component extraction results, the structured-export
extractor and the scraped-entry normalizer, the all-core-components flag is
true exactly when the missing-component list is empty, and that list only
ever holds the four core component names; baseline never appears in it. -/
theorem core_component_flags :
    (∀ e : Record,
      ((extractBurnedComponents e).hasAll = true ↔
        (extractBurnedComponents e).missingComponents = []) ∧
      ∀ c ∈ (extractBurnedComponents e).missingComponents, c ∈ defaultMissing) ∧
    (∀ es : RawScrapedEntry,
      ((normalizeScrapedEntry es).hasAllCoreComponents = true ↔
        (normalizeScrapedEntry es).missingComponents = []) ∧
      ∀ c ∈ (normalizeScrapedEntry es).missingComponents, c ∈ defaultMissing) := by
  constructor
  · intro e
    constructor
    · simp only [extractBurnedComponents, List.isEmpty_iff]
    · intro c hc
      have h := collect_missing_subset e coreKeyTable c hc
      have : coreKeyTable.map Prod.fst = defaultMissing := by decide
      rwa [this] at h
  · intro es
    constructor
    · simp only [normalizeScrapedEntry, List.isEmpty_iff]
    · intro c hc
      simp only [normalizeScrapedEntry, scrapedMissing] at hc
      rcases List.mem_append.mp hc with h | h
      · rcases List.mem_append.mp h with h | h
        · rcases List.mem_append.mp h with h | h
          · split at h <;> simp_all [defaultMissing]
          · split at h <;> simp_all [defaultMissing]
        · split at h <;> simp_all [defaultMissing]
      · split at h <;> simp_all [defaultMissing]

/-- Concrete instance for the C7 theorem. -/
theorem core_component_flags_w :
    ((extractBurnedComponents [("TEF (kcal)", JSValue.vNum 150)]).hasAll = true ↔
      (extractBurnedComponents [("TEF (kcal)", JSValue.vNum 150)]).missingComponents = []) ∧
    "bmr" ∈ defaultMissing := by
  exact ⟨(core_component_flags.1 [("TEF (kcal)", JSValue.vNum 150)]).1,
    (core_component_flags.1 [("TEF (kcal)", JSValue.vNum 150)]).2 "bmr" (by decide)⟩

theorem lookupA_cons {α : Type} (p : String × α) (m : List (String × α)) (k : String) :
    lookupA (p :: m) k = if p.1 == k then some p.2 else lookupA m k := by
  unfold lookupA
  cases h : (p.1 == k) with
  | true => simp [List.find?_cons, h]
  | false => simp [List.find?_cons, h]

theorem lookupA_setA_self {α : Type} (m : List (String × α)) (k : String) (v : α) :
    lookupA (setA m k v) k = some v := by
  induction m with
  | nil =>
    rw [show setA ([] : List (String × α)) k v = [(k, v)] from rfl, lookupA_cons]
    simp
  | cons p rest ih =>
    unfold setA
    by_cases h : (p.1 == k) = true
    · rw [if_pos h, lookupA_cons]
      simp
    · rw [if_neg h, lookupA_cons, if_neg h]
      exact ih

theorem lookupA_setA_ne {α : Type} (m : List (String × α)) (k : String) (v : α)
    (k' : String) (h : k' ≠ k) : lookupA (setA m k v) k' = lookupA m k' := by
  induction m with
  | nil =>
    rw [show setA ([] : List (String × α)) k v = [(k, v)] from rfl, lookupA_cons,
      if_neg (by simp [Ne.symm h])]
  | cons p rest ih =>
    unfold setA
    by_cases hpk : (p.1 == k) = true
    · have hpeq : p.1 = k := by simpa using hpk
      rw [if_pos hpk, lookupA_cons, lookupA_cons, if_neg (by simp [Ne.symm h]), hpeq,
        if_neg (by simp [Ne.symm h])]
    · rw [if_neg hpk, lookupA_cons, lookupA_cons, ih]

theorem aggStep_date_none {m : List (String × Agg)} {x : Record}
    (hx : exDate x = none) : aggStep m x = m := by
  unfold aggStep
  rw [hx]

theorem aggStep_lookup_proj {m : List (String × Agg)} {x : Record} {d : String}
    (hx : exDate x = some d) :
    (lookupA (aggStep m x) d).map aggProj =
      some ((aggBase m d).1 + exRaw x, (aggBase m d).2.1 + jsAbs (exRaw x),
        (aggBase m d).2.2 + 1) := by
  unfold aggStep
  rw [hx]
  dsimp only
  rw [lookupA_setA_self]
  cases h : lookupA m d <;> simp [aggProj, aggBase, h]

theorem aggStep_lookup_ne {m : List (String × Agg)} {x : Record} {d d' : String}
    (hx : exDate x = some d') (hne : d' ≠ d) :
    lookupA (aggStep m x) d = lookupA m d := by
  unfold aggStep
  rw [hx]
  dsimp only
  exact lookupA_setA_ne _ _ _ _ (Ne.symm hne)

theorem rowsFor_cons_none {d : String} {x : Record} {exs : List Record}
    (hx : exDate x = none) : rowsFor d (x :: exs) = rowsFor d exs := by
  simp [rowsFor, List.filter_cons, hx]

theorem rowsFor_cons_ne {d d' : String} {x : Record} {exs : List Record}
    (hx : exDate x = some d') (hne : d' ≠ d) :
    rowsFor d (x :: exs) = rowsFor d exs := by
  simp [rowsFor, List.filter_cons, hx, hne]

theorem rowsFor_cons_eq {d : String} {x : Record} {exs : List Record}
    (hx : exDate x = some d) : rowsFor d (x :: exs) = x :: rowsFor d exs := by
  simp [rowsFor, List.filter_cons, hx]

theorem sumRaw_cons_eq {d : String} {x : Record} {exs : List Record}
    (hx : exDate x = some d) : sumRaw d (x :: exs) = exRaw x + sumRaw d exs := by
  unfold sumRaw
  rw [rowsFor_cons_eq hx, List.map_cons, List.sum_cons]

theorem sumAbs_cons_eq {d : String} {x : Record} {exs : List Record}
    (hx : exDate x = some d) :
    sumAbs d (x :: exs) = jsAbs (exRaw x) + sumAbs d exs := by
  unfold sumAbs
  rw [rowsFor_cons_eq hx, List.map_cons, List.sum_cons]

theorem cnt_cons_eq {d : String} {x : Record} {exs : List Record}
    (hx : exDate x = some d) : cnt d (x :: exs) = cnt d exs + 1 := by
  unfold cnt
  rw [rowsFor_cons_eq hx, List.length_cons]

theorem sumRaw_congr {d : String} {x : Record} {exs : List Record}
    (h : rowsFor d (x :: exs) = rowsFor d exs) :
    sumRaw d (x :: exs) = sumRaw d exs := by
  unfold sumRaw
  rw [h]

theorem sumAbs_congr {d : String} {x : Record} {exs : List Record}
    (h : rowsFor d (x :: exs) = rowsFor d exs) :
    sumAbs d (x :: exs) = sumAbs d exs := by
  unfold sumAbs
  rw [h]

theorem cnt_congr {d : String} {x : Record} {exs : List Record}
    (h : rowsFor d (x :: exs) = rowsFor d exs) :
    cnt d (x :: exs) = cnt d exs := by
  unfold cnt
  rw [h]

theorem sumRaw_of_rows_nil {d : String} {exs : List Record}
    (h : rowsFor d exs = []) : sumRaw d exs = 0 := by
  unfold sumRaw
  rw [h]
  rfl

theorem sumAbs_of_rows_nil {d : String} {exs : List Record}
    (h : rowsFor d exs = []) : sumAbs d exs = 0 := by
  unfold sumAbs
  rw [h]
  rfl

theorem cnt_of_rows_nil {d : String} {exs : List Record}
    (h : rowsFor d exs = []) : cnt d exs = 0 := by
  unfold cnt
  rw [h]
  rfl

theorem aggFold_char (d : String) :
    ∀ (exs : List Record) (m : List (String × Agg)),
      (rowsFor d exs = [] →
        lookupA (exs.foldl aggStep m) d = lookupA m d) ∧
      (rowsFor d exs ≠ [] →
        (lookupA (exs.foldl aggStep m) d).map aggProj =
          some ((aggBase m d).1 + sumRaw d exs,
                (aggBase m d).2.1 + sumAbs d exs,
                (aggBase m d).2.2 + cnt d exs)) := by
  intro exs
  induction exs with
  | nil =>
    intro m
    exact ⟨fun _ => rfl, fun h => absurd rfl h⟩
  | cons x exs ih =>
    intro m
    simp only [List.foldl_cons]
    cases hx : exDate x with
    | none =>
      have hrr := @rowsFor_cons_none d x exs hx
      rw [aggStep_date_none hx, hrr, sumRaw_congr hrr, sumAbs_congr hrr, cnt_congr hrr]
      exact ih m
    | some d' =>
      by_cases hd : d' = d
      · rw [hd] at hx
        constructor
        · intro h
          rw [rowsFor_cons_eq hx] at h
          cases h
        · intro _
          by_cases hrest : rowsFor d exs = []
          · rw [(ih (aggStep m x)).1 hrest, aggStep_lookup_proj hx,
              sumRaw_cons_eq hx, sumAbs_cons_eq hx, cnt_cons_eq hx,
              sumRaw_of_rows_nil hrest, sumAbs_of_rows_nil hrest, cnt_of_rows_nil hrest]
            simp only [Option.some.injEq, Prod.mk.injEq]
            refine ⟨by ring, by ring, by ring_nf⟩
          · have hbase2 : aggBase (aggStep m x) d =
                ((aggBase m d).1 + exRaw x, (aggBase m d).2.1 + jsAbs (exRaw x),
                 (aggBase m d).2.2 + 1) := by
              unfold aggBase
              rw [aggStep_lookup_proj hx]
              rfl
            rw [(ih (aggStep m x)).2 hrest, hbase2,
              sumRaw_cons_eq hx, sumAbs_cons_eq hx, cnt_cons_eq hx]
            simp only [Option.some.injEq, Prod.mk.injEq]
            refine ⟨by ring, by ring, by ring_nf⟩
      · have hrr := @rowsFor_cons_ne d d' x exs hx hd
        have hstep := @aggStep_lookup_ne m x d d' hx hd
        have hbase : aggBase (aggStep m x) d = aggBase m d := by
          unfold aggBase
          rw [hstep]
        rw [hrr, sumRaw_congr hrr, sumAbs_congr hrr, cnt_congr hrr]
        constructor
        · intro h
          rw [(ih (aggStep m x)).1 h, hstep]
        · intro h
          rw [(ih (aggStep m x)).2 h, hbase]

/-- C5. resolvedBurnedTotal is the numerically largest of the finite,
strictly positive burn candidates (absolute energyBurned, the surviving
energyBalance magnitude, componentTotalWithBaseline), resolvedBurnedSource
names a candidate attaining it, and with no such candidate the source is
null and the total 0. -/
theorem resolved_burned_largest (es : RawScrapedEntry) (n : NormScraped)
    (hn : n = normalizeScrapedEntry es) :
    (burnCandidateList n.burnCandidates = [] →
      n.resolvedBurnedSource = none ∧ n.resolvedBurnedTotal = 0) ∧
    (∀ p ∈ burnCandidateList n.burnCandidates, p.2 ≤ n.resolvedBurnedTotal) ∧
    (burnCandidateList n.burnCandidates ≠ [] →
      ∃ s, n.resolvedBurnedSource = some s ∧
        (s, n.resolvedBurnedTotal) ∈ burnCandidateList n.burnCandidates) := by
  subst hn
  have hsrc : (normalizeScrapedEntry es).resolvedBurnedSource =
      (pickLargest (burnCandidateList (normalizeScrapedEntry es).burnCandidates)).map
        (fun p => p.1) := rfl
  have htot : (normalizeScrapedEntry es).resolvedBurnedTotal =
      (match pickLargest (burnCandidateList (normalizeScrapedEntry es).burnCandidates) with
       | some p => p.2
       | none => 0) := rfl
  cases hL : burnCandidateList (normalizeScrapedEntry es).burnCandidates with
  | nil =>
    rw [hL] at hsrc htot
    refine ⟨fun _ => ⟨hsrc, htot⟩, ?_, fun h => absurd rfl h⟩
    intro p hp
    cases hp
  | cons c rest =>
    rw [hL] at hsrc htot
    have hsrcv : (normalizeScrapedEntry es).resolvedBurnedSource =
        some (rest.foldl pickStep c).1 := hsrc
    have htotv : (normalizeScrapedEntry es).resolvedBurnedTotal =
        (rest.foldl pickStep c).2 := htot
    have hmem : rest.foldl pickStep c ∈ c :: rest := by
      rcases foldl_pickStep_mem rest c with h | h
      · rw [h]; exact List.mem_cons_self c rest
      · exact List.mem_cons_of_mem c h
    obtain ⟨hge1, hge2⟩ := foldl_pickStep_ge rest c
    refine ⟨fun h => absurd h (List.cons_ne_nil c rest), ?_, fun _ => ?_⟩
    · intro p hp
      rw [htotv]
      rcases List.mem_cons.mp hp with h | h
      · rw [h]; exact hge1
      · exact hge2 p h
    · refine ⟨(rest.foldl pickStep c).1, hsrcv, ?_⟩
      rw [htotv]
      exact Prod.mk.eta ▸ hmem

/-- Concrete instance for the C5 theorem: the component total is the only
positive candidate of esC5 and resolvedBurnedTotal equals it. -/
theorem resolved_burned_largest_w :
    (1780 : ℚ) ≤ (normalizeScrapedEntry esC5).resolvedBurnedTotal ∧
    (normalizeScrapedEntry esC5).resolvedBurnedTotal = 1780 := by
  constructor
  · apply (resolved_burned_largest esC5 _ rfl).2.1 ("componentTotalWithBaseline", (1780 : ℚ))
    norm_num [esC5, normalizeScrapedEntry, burnCandidateList, jsAbs, List.filterMap_cons,
      scrapedBalanceCandidate, scrapedBalancePositive, scrapedCtwb, scrapedCtc]
  · norm_num [esC5, normalizeScrapedEntry, burnCandidateList, jsAbs, pickLargest, pickStep,
      List.filterMap_cons, scrapedBalanceCandidate, scrapedBalancePositive, scrapedCtwb,
      scrapedCtc]

/-- C4. The scraped energyBalance is admitted as a burn candidate only when
its raw value is positive, and, whenever componentTotalWithBaseline is
positive, only when its magnitude lies within 0.7 to 1.8 times that total;
in particular with total 2000 and balance 4500 (ratio 2.25) the candidate is
discarded and never selected. -/
theorem balance_candidate_filter (es : RawScrapedEntry) (b : ℚ)
    (h : (normalizeScrapedEntry es).burnCandidates.energyBalance = some b) :
    ((es.energyBalance = some b ∧ 0 < b) ∧
      (0 < (normalizeScrapedEntry es).componentTotalWithBaseline →
        7 / 10 ≤ b / (normalizeScrapedEntry es).componentTotalWithBaseline ∧
        b / (normalizeScrapedEntry es).componentTotalWithBaseline ≤ 9 / 5)) ∧
    (normalizeScrapedEntry esC4).burnCandidates.energyBalance = none ∧
    (normalizeScrapedEntry esC4).resolvedBurnedSource ≠ some "energyBalance" ∧
    (normalizeScrapedEntry esC4).componentTotalWithBaseline = 2000 ∧
    esC4.energyBalance = some 4500 := by
  refine ⟨?_, ?_, ?_, ?_, rfl⟩
  · have h' : scrapedBalanceCandidate es = some b := by
      rw [normalize_burnCandidates] at h
      exact h
    rw [normalize_ctwb]
    unfold scrapedBalanceCandidate at h'
    cases hp : scrapedBalancePositive es with
    | none => rw [hp] at h'; cases h'
    | some b0 =>
      rw [hp] at h'
      dsimp only at h'
      unfold scrapedBalancePositive at hp
      cases hB : es.energyBalance with
      | none => rw [hB] at hp; cases hp
      | some r =>
        rw [hB] at hp
        dsimp only at hp
        by_cases hr : 0 < r
        · rw [if_pos hr] at hp
          injection hp with hb0
          have hrb : r = b0 := (jsAbs_of_pos hr).symm.trans hb0
          by_cases hC : 0 < scrapedCtwb es
          · rw [if_pos hC] at h'
            by_cases hcond : b0 / scrapedCtwb es < 7 / 10 ∨ 9 / 5 < b0 / scrapedCtwb es
            · rw [if_pos hcond] at h'; cases h'
            · rw [if_neg hcond] at h'
              injection h' with hb
              push_neg at hcond
              subst hb
              exact ⟨⟨by rw [hrb], hrb ▸ hr⟩, fun _ => ⟨hcond.1, hcond.2⟩⟩
          · rw [if_neg hC] at h'
            injection h' with hb
            subst hb
            exact ⟨⟨by rw [hrb], hrb ▸ hr⟩, fun hx => absurd hx hC⟩
        · rw [if_neg hr] at hp; cases hp
  · rw [normalize_burnCandidates]
    norm_num [esC4, scrapedBalanceCandidate, scrapedBalancePositive, scrapedCtwb, scrapedCtc,
      jsAbs]
  · norm_num [esC4, normalizeScrapedEntry, burnCandidateList, jsAbs, pickLargest, pickStep,
      List.filterMap_cons, scrapedBalanceCandidate, scrapedBalancePositive, scrapedCtwb,
      scrapedCtc]
    decide
  · rw [normalize_ctwb]
    norm_num [esC4, scrapedCtwb, scrapedCtc, jsAbs]

/-- Concrete instance for the C4 theorem: with component total 2000 a
balance of 2400 (ratio 1.2) is admitted, positive and within bounds. -/
theorem balance_candidate_filter_w :
    (esC4b.energyBalance = some 2400 ∧ (0 : ℚ) < 2400) ∧
    (7 / 10 ≤ (2400 : ℚ) / 2000 ∧ (2400 : ℚ) / 2000 ≤ 9 / 5) := by
  have hc : (normalizeScrapedEntry esC4b).componentTotalWithBaseline = 2000 := by
    rw [normalize_ctwb]
    norm_num [esC4b, scrapedCtwb, scrapedCtc, jsAbs]
  have h := (balance_candidate_filter esC4b 2400
    (by
      rw [normalize_burnCandidates]
      norm_num [esC4b, scrapedBalanceCandidate, scrapedBalancePositive, scrapedCtwb,
        scrapedCtc, jsAbs])).1
  rw [hc] at h
  exact ⟨h.1, h.2 (by norm_num)⟩

/-- C3 counterexample. The structured-field extractor does not normalize
unicode minus or strip thousands separators: a record whose matched alias
field holds "−1,234.5" extracts nothing, not -1234.5. -/
theorem unicode_minus_cex :
    parseNumber (JSValue.vStr "−1,234.5") = none ∧
    getNumericField [("Energy Burned (kcal)", JSValue.vStr "−1,234.5")]
      ["Energy Burned (kcal)"] = none ∧
    getNumericField [("Energy Burned (kcal)", JSValue.vStr "−1,234.5")]
      ["Energy Burned (kcal)"] ≠ some (-2469 / 2, "Energy Burned (kcal)") := by
  refine ⟨by decide, by decide, ?_⟩
  intro h
  rw [(by decide : getNumericField [("Energy Burned (kcal)", JSValue.vStr "−1,234.5")]
    ["Energy Burned (kcal)"] = (none : Option (ℚ × String)))] at h
  cases h

/-- C3 amended. The comma-stripping and unicode-minus normalization live in
the scraped-text parser num, which maps "−1,234.5" to -1234.5; the
structured-field extractor parseNumber uses plain Number semantics, so a
record all of whose fields hold "−1,234.5" yields no extraction at all. -/
theorem numeric_parsing_amended :
    (∀ (e : Record) (ks : List String),
      (∀ p ∈ e, p.2 = JSValue.vStr "−1,234.5") → getNumericField e ks = none) ∧
    scrapeNum "−1,234.5" = some (-2469 / 2) := by
  constructor
  · intro e ks hall
    induction ks with
    | nil => rfl
    | cons k rest ih =>
      simp only [getNumericField]
      cases hv : lookupRec e k with
      | none => exact ih
      | some v =>
        have hvv : v = JSValue.vStr "−1,234.5" := by
          obtain ⟨p, hfind, hp2⟩ := Option.map_eq_some'.mp hv
          rw [← hp2]
          exact hall p (List.mem_of_find?_eq_some hfind)
        rw [hvv]
        dsimp only
        rw [(by decide : parseNumber (JSValue.vStr "−1,234.5") = (none : Option ℚ))]
        exact ih
  · have hs : scrapeNum "−1,234.5" =
        some ((-1 : ℚ) * ((natOfDigits ['1', '2', '3', '4'] : ℚ) +
          (natOfDigits ['5'] : ℚ) / (10 : ℚ) ^ 1)) := rfl
    rw [hs, (by decide : natOfDigits ['1', '2', '3', '4'] = 1234),
      (by decide : natOfDigits ['5'] = 5)]
    norm_num

/-- Concrete instance for the C3 amended theorem. -/
theorem numeric_parsing_amended_w :
    getNumericField [("x", JSValue.vStr "−1,234.5")] ["x"] = none ∧
    scrapeNum "−1,234.5" = some (-2469 / 2) :=
  ⟨numeric_parsing_amended.1 _ _ (by decide), numeric_parsing_amended.2⟩

/-- C8 failing input. A scraped page reporting Energy Burned -500 selects
the scrape_energy_burned_total tier with burnedCalories 500, but
burnedRawCalories is also 500: the sign was destroyed by the normalizer
energyBurnedAbs, so the raw counterpart is not negative as the claim and the
in-code notes require. -/
theorem scrape_raw_sign_lost :
    esC8.energyBurned = some (-500) ∧
    (reconcileDay eC8 sMC8 []).burnedSource = "scrape_energy_burned_total" ∧
    (reconcileDay eC8 sMC8 []).burnedCalories = 500 ∧
    (reconcileDay eC8 sMC8 []).burnedRawCalories = 500 ∧
    ¬(reconcileDay eC8 sMC8 []).burnedRawCalories < 0 := by
  refine ⟨rfl, rfl, ?_, ?_, ?_⟩
  · show jsAbs (jsAbs (-500)) = 500
    norm_num [jsAbs]
  · show jsAbs (-500) = 500
    norm_num [jsAbs]
  · show ¬jsAbs (-500) < 0
    norm_num [jsAbs]

/-- C9. When the scraped entry reports energyBurned equal to 0, the
reconciler still selects scrape_energy_burned_total with burnedCalories 0,
the day is not unreconcilable, and netCalories equals consumedCalories. -/
theorem zero_energy_burned_selected (es : RawScrapedEntry) (e : Record)
    (sM : List (String × NormScraped)) (aggM : List (String × Agg))
    (h0 : es.energyBurned = some 0)
    (h1 : scrapedFor e sM = some (normalizeScrapedEntry es)) :
    (reconcileDay e sM aggM).burnedSource = "scrape_energy_burned_total" ∧
    (reconcileDay e sM aggM).burnedCalories = 0 ∧
    (reconcileDay e sM aggM).burnedSource ≠ "none" ∧
    (reconcileDay e sM aggM).netCalories = (reconcileDay e sM aggM).consumedCalories := by
  have hEB : (normalizeScrapedEntry es).energyBurned = some 0 := by
    rw [normalize_energyBurned, h0]
    rfl
  have hc : chooseBurn (scrapedFor e sM) (extractBurnedComponents e)
      (inferBurnedCalories e) (aggFor e aggM) =
      ⟨some (jsAbs 0), some 0, "scrape_energy_burned_total",
       (normalizeScrapedEntry es).missingComponents⟩ := by
    rw [h1]
    exact chooseBurn_tier1 _ 0 _ _ _ hEB
  have hz : jsAbs 0 = (0 : ℚ) := by norm_num [jsAbs]
  refine ⟨?_, ?_, ?_, ?_⟩
  · rw [reconcileDay_burnedSource, hc]
  · rw [reconcileDay_burnedCalories, hc]
    show (some (jsAbs 0)).getD 0 = 0
    rw [Option.getD_some, hz]
  · rw [reconcileDay_burnedSource, hc]
    dsimp only
    decide
  · rw [reconcileDay_net, reconcileDay_consumed, hc]
    show (parseNumberField e "calories").getD 0 - (some (jsAbs 0)).getD 0 =
      (parseNumberField e "calories").getD 0
    rw [Option.getD_some, hz, sub_zero]

/-- Concrete instance for the C9 theorem. -/
theorem zero_energy_burned_selected_w :
    (reconcileDay eC9 sMC9 []).burnedSource = "scrape_energy_burned_total" ∧
    (reconcileDay eC9 sMC9 []).burnedCalories = 0 ∧
    (reconcileDay eC9 sMC9 []).burnedSource ≠ "none" ∧
    (reconcileDay eC9 sMC9 []).netCalories = (reconcileDay eC9 sMC9 []).consumedCalories :=
  zero_energy_burned_selected esC9 eC9 sMC9 [] rfl rfl

/-- C1. The burnedSource tag and burned figure of a reconciled day follow
the fixed first-applicable tier order: scraped direct burned, scraped
complete components, scraped partial components, export components
(complete or partial), inferred direct burned with its own source label,
exercise-log aggregate, and finally none. -/
theorem burned_source_tier_order (e : Record) (sM : List (String × NormScraped))
    (aggM : List (String × Agg)) :
    (∀ n v, scrapedFor e sM = some n → n.energyBurned = some v →
      (reconcileDay e sM aggM).burnedSource = "scrape_energy_burned_total" ∧
      (reconcileDay e sM aggM).burnedCalories = jsAbs v) ∧
    (∀ n, scrapedFor e sM = some n → n.energyBurned = none →
      n.hasAllCoreComponents = true → 0 < n.componentTotalWithBaseline →
      (reconcileDay e sM aggM).burnedSource = "scrape_components_complete" ∧
      (reconcileDay e sM aggM).burnedCalories = n.componentTotalWithBaseline) ∧
    (∀ n, scrapedFor e sM = some n → n.energyBurned = none →
      n.hasAllCoreComponents = false → 0 < n.componentTotalWithBaseline →
      (reconcileDay e sM aggM).burnedSource = "scrape_components_partial" ∧
      (reconcileDay e sM aggM).burnedCalories = n.componentTotalWithBaseline) ∧
    ((∀ n, scrapedFor e sM = some n →
        n.energyBurned = none ∧ n.componentTotalWithBaseline ≤ 0) →
      ((extractBurnedComponents e).hasAny = true →
        (reconcileDay e sM aggM).burnedSource =
          (if (extractBurnedComponents e).hasAll then "nutrition_components_complete"
           else "nutrition_components_partial") ∧
        (reconcileDay e sM aggM).burnedCalories = (extractBurnedComponents e).total) ∧
      ((extractBurnedComponents e).hasAny = false →
        (∀ b src, inferBurnedCalories e = some (b, src) →
          (reconcileDay e sM aggM).burnedSource = src ∧
          (reconcileDay e sM aggM).burnedCalories = b) ∧
        (inferBurnedCalories e = none →
          (∀ a, aggFor e aggM = some a →
            (reconcileDay e sM aggM).burnedSource = "exercise_export_abs" ∧
            (reconcileDay e sM aggM).burnedCalories = a.burnedCalories) ∧
          (aggFor e aggM = none →
            (reconcileDay e sM aggM).burnedSource = "none" ∧
            (reconcileDay e sM aggM).burnedCalories = 0)))) := by
  refine ⟨?_, ?_, ?_, ?_⟩
  · intro n v hn hv
    rw [reconcileDay_burnedSource, reconcileDay_burnedCalories, hn,
      chooseBurn_tier1 n v _ _ _ hv]
    exact ⟨rfl, Option.getD_some⟩
  · intro n hn hv hall hpos
    rw [reconcileDay_burnedSource, reconcileDay_burnedCalories, hn,
      chooseBurn_tier2 n _ _ _ hv hall hpos]
    exact ⟨rfl, Option.getD_some⟩
  · intro n hn hv hall hpos
    rw [reconcileDay_burnedSource, reconcileDay_burnedCalories, hn,
      chooseBurn_tier3 n _ _ _ hv hall hpos]
    exact ⟨rfl, Option.getD_some⟩
  · intro hsc
    have hlt : chooseBurn (scrapedFor e sM) (extractBurnedComponents e)
        (inferBurnedCalories e) (aggFor e aggM) =
        laterTiers (extractBurnedComponents e) (inferBurnedCalories e)
          (aggFor e aggM) := by
      cases hs : scrapedFor e sM with
      | none => exact chooseBurn_noScrape _ _ _
      | some n =>
        obtain ⟨h1, h2⟩ := hsc n hs
        exact chooseBurn_scrapeUnusable n _ _ _ h1 h2
    refine ⟨?_, ?_⟩
    · intro hany
      rw [reconcileDay_burnedSource, reconcileDay_burnedCalories, hlt,
        laterTiers_components _ _ _ hany]
      exact ⟨rfl, Option.getD_some⟩
    · intro hnone
      refine ⟨?_, ?_⟩
      · intro b src hinf
        rw [reconcileDay_burnedSource, reconcileDay_burnedCalories, hlt,
          laterTiers_inferred _ b src _ _ hnone hinf]
        exact ⟨rfl, Option.getD_some⟩
      · intro hinf
        refine ⟨?_, ?_⟩
        · intro a ha
          rw [reconcileDay_burnedSource, reconcileDay_burnedCalories, hlt,
            laterTiers_agg _ a _ _ hnone hinf ha]
          exact ⟨rfl, Option.getD_some⟩
        · intro ha
          rw [reconcileDay_burnedSource, reconcileDay_burnedCalories, hlt,
            laterTiers_none _ _ _ hnone hinf ha]
          exact ⟨rfl, rfl⟩

/-- Concrete instance for the C1 theorem: a day with scraped direct burned
500 and a complete export component set totalling 480 selects the scrape
tier with burnedCalories 500. -/
theorem burned_source_tier_order_w :
    (reconcileDay eC1 sMC1 []).burnedSource = "scrape_energy_burned_total" ∧
    (reconcileDay eC1 sMC1 []).burnedCalories = 500 ∧
    (extractBurnedComponents eC1).hasAll = true ∧
    (extractBurnedComponents eC1).total = 480 := by
  have h := (burned_source_tier_order eC1 sMC1 []).1 (normalizeScrapedEntry esC1)
    (jsAbs 500) rfl rfl
  refine ⟨h.1, ?_, by decide, ?_⟩
  · rw [h.2]
    norm_num [jsAbs]
  · have ht : (extractBurnedComponents eC1).total =
        jsAbs 300 + (jsAbs 30 + (jsAbs 100 + (jsAbs 50 + 0))) + 0 := rfl
    rw [ht]
    norm_num [jsAbs]

/-- C6. When a day falls through to the exercise-log tier (no scraped entry,
no export burn components, no inferred burned field), burnedCalories is the
sum of absolute caloriesBurned over all rows of that date, burnedRawCalories
the signed sum, burnedSource is exercise_export_abs and
missingBurnComponents is bmr and tef. -/
theorem exercise_fallback_sums (e : Record) (sM : List (String × NormScraped))
    (exs : List Record) (d : String)
    (hd : dateOrNull e = some (JSValue.vStr d))
    (h1 : scrapedFor e sM = none)
    (h2 : (extractBurnedComponents e).hasAny = false)
    (h3 : inferBurnedCalories e = none)
    (h4 : rowsFor d exs ≠ []) :
    (reconcileDay e sM (aggregateBurnedByDate exs)).burnedSource =
      "exercise_export_abs" ∧
    (reconcileDay e sM (aggregateBurnedByDate exs)).burnedCalories = sumAbs d exs ∧
    (reconcileDay e sM (aggregateBurnedByDate exs)).burnedRawCalories = sumRaw d exs ∧
    (reconcileDay e sM (aggregateBurnedByDate exs)).missingBurnComponents =
      ["bmr", "tef"] := by
  have hagg : (lookupA (aggregateBurnedByDate exs) d).map aggProj =
      some (0 + sumRaw d exs, 0 + sumAbs d exs, 0 + cnt d exs) := by
    have h := (aggFold_char d exs []).2 h4
    have hb : aggBase [] d = ((0 : ℚ), (0 : ℚ), (0 : ℕ)) := rfl
    rw [hb] at h
    exact h
  obtain ⟨a, ha, hproj⟩ := Option.map_eq_some'.mp hagg
  have haggFor : aggFor e (aggregateBurnedByDate exs) = some a := by
    unfold aggFor
    rw [hd]
    exact ha
  have hp : a.burnedRawCalories = 0 + sumRaw d exs ∧
      a.burnedCalories = 0 + sumAbs d exs ∧ a.entries = 0 + cnt d exs := by
    have h1p := congrArg Prod.fst hproj
    have h2p := congrArg (fun t => t.2.1) hproj
    have h3p := congrArg (fun t => t.2.2) hproj
    exact ⟨h1p, h2p, h3p⟩
  have hlt : chooseBurn (scrapedFor e sM) (extractBurnedComponents e)
      (inferBurnedCalories e) (aggFor e (aggregateBurnedByDate exs)) =
      ⟨some a.burnedCalories, some a.burnedRawCalories, "exercise_export_abs",
       ["bmr", "tef"]⟩ := by
    rw [h1, chooseBurn_noScrape]
    exact laterTiers_agg _ a _ _ h2 h3 haggFor
  refine ⟨?_, ?_, ?_, ?_⟩
  · rw [reconcileDay_burnedSource, hlt]
  · rw [reconcileDay_burnedCalories, hlt]
    show (some a.burnedCalories).getD 0 = sumAbs d exs
    rw [Option.getD_some, hp.2.1, zero_add]
  · rw [reconcileDay_burnedRawCalories, hlt]
    show (some a.burnedRawCalories).getD 0 = sumRaw d exs
    rw [Option.getD_some, hp.1, zero_add]
  · rw [reconcileDay_missing, hlt]

/-- Concrete instance for the C6 theorem: rows of -250 and -100 on one date
give burnedCalories 350 and burnedRawCalories -350. -/
theorem exercise_fallback_sums_w :
    (reconcileDay eC6 [] (aggregateBurnedByDate exsC6)).burnedSource =
      "exercise_export_abs" ∧
    (reconcileDay eC6 [] (aggregateBurnedByDate exsC6)).burnedCalories = 350 ∧
    (reconcileDay eC6 [] (aggregateBurnedByDate exsC6)).burnedRawCalories = -350 ∧
    (reconcileDay eC6 [] (aggregateBurnedByDate exsC6)).missingBurnComponents =
      ["bmr", "tef"] := by
  have h := exercise_fallback_sums eC6 [] exsC6 "2024-01-03" rfl rfl (by decide)
    (by decide) (by decide)
  have habs : sumAbs "2024-01-03" exsC6 = jsAbs (-250) + (jsAbs (-100) + 0) := rfl
  have hraw : sumRaw "2024-01-03" exsC6 = -250 + (-100 + 0) := rfl
  refine ⟨h.1, ?_, ?_, h.2.2.2⟩
  · rw [h.2.1, habs]
    norm_num [jsAbs]
  · rw [h.2.2.1, hraw]
    norm_num

/-- Membership in the thrown date list: exactly the truthy dates of days
whose burnedSource is none. -/
theorem mem_offendingDates (perDay : List DayResult) (v : JSValue) :
    v ∈ offendingDates perDay ↔
      ∃ dd ∈ perDay, dd.burnedSource = "none" ∧ dd.date = some v := by
  unfold offendingDates
  simp only [List.mem_filterMap, List.mem_filter, beq_iff_eq]
  constructor
  · rintro ⟨dd, ⟨hmem, hsrc⟩, hdate⟩
    exact ⟨dd, hmem, hsrc, hdate⟩
  · rintro ⟨dd, hmem, hsrc, hdate⟩
    exact ⟨dd, ⟨hmem, hsrc⟩, hdate⟩

theorem foldl_add_eq_sum {β : Type} (f : β → ℚ) (l : List β) :
    ∀ a : ℚ, l.foldl (fun s x => s + f x) a = a + (l.map f).sum := by
  induction l with
  | nil =>
    intro a
    simp
  | cons x xs ih =>
    intro a
    simp only [List.foldl_cons, List.map_cons, List.sum_cons, ih (a + f x)]
    ring

/-- C2 counterexample. A completed entry with no date that reconciles to
burnedSource none does not make the aggregation fail: it escapes the
filter on truthy dates and is summed into the totals with burnedCalories 0. -/
theorem none_day_escapes_aggregate :
    (reconcileDay cexC2 [] []).burnedSource = "none" ∧
    (reconcileDay cexC2 [] []).date = none ∧
    (weeklyAggregate [cexC2] [] []).toOption.map
      (fun s => (s.daysUsed, s.burnedTotal)) = some (1, 0) := by
  refine ⟨by decide, by decide, ?_⟩
  have h : (weeklyAggregate [cexC2] [] []).toOption.map
      (fun s => (s.daysUsed, s.burnedTotal)) = some (1, (0 : ℚ) + 0) := rfl
  rw [h]
  norm_num

/-- C2 amended. If any reconciled day with a truthy date has burnedSource
none, the aggregation raises the 503 error carrying those dates; a
burnedSource none day whose date is null escapes the check; when no day has
burnedSource none, every reconciled day is summed unconditionally into the
totals. -/
theorem aggregate_fail_fast_amended (completed : List Record)
    (sM : List (String × NormScraped)) (aggM : List (String × Agg)) :
    ((∃ dd ∈ weeklyPerDay completed sM aggM,
        dd.burnedSource = "none" ∧ dd.date.isSome) →
      ∃ err, weeklyAggregate completed sM aggM = .error err ∧
        err.message =
          "Unable to determine burned calories for one or more completed days." ∧
        ∀ dd ∈ weeklyPerDay completed sM aggM, dd.burnedSource = "none" →
          ∀ v, dd.date = some v → v ∈ err.daysWithoutBurnSource) ∧
    ((∀ dd ∈ weeklyPerDay completed sM aggM, dd.burnedSource ≠ "none") →
      ∃ s, weeklyAggregate completed sM aggM = .ok s ∧
        s.daysUsed = (weeklyPerDay completed sM aggM).length ∧
        s.consumedTotal = ((weeklyPerDay completed sM aggM).map
          (fun dd => dd.consumedCalories)).sum ∧
        s.burnedTotal = ((weeklyPerDay completed sM aggM).map
          (fun dd => dd.burnedCalories)).sum ∧
        s.netTotal = s.consumedTotal - s.burnedTotal) := by
  constructor
  · rintro ⟨dd, hmem, hsrc, hdate⟩
    obtain ⟨v, hv⟩ := Option.isSome_iff_exists.mp hdate
    have hvmem : v ∈ offendingDates (weeklyPerDay completed sM aggM) :=
      (mem_offendingDates _ v).mpr ⟨dd, hmem, hsrc, hv⟩
    have hne : (offendingDates (weeklyPerDay completed sM aggM)).isEmpty ≠ true := by
      intro h0
      rw [List.isEmpty_iff.mp h0] at hvmem
      cases hvmem
    refine ⟨⟨"Unable to determine burned calories for one or more completed days.",
      offendingDates (weeklyPerDay completed sM aggM)⟩, ?_, rfl, ?_⟩
    · unfold weeklyAggregate
      rw [if_neg hne]
    · intro dd2 hmem2 hsrc2 v2 hv2
      exact (mem_offendingDates _ v2).mpr ⟨dd2, hmem2, hsrc2, hv2⟩
  · intro hall
    have hnil : offendingDates (weeklyPerDay completed sM aggM) = [] := by
      refine List.eq_nil_iff_forall_not_mem.mpr ?_
      intro v hv
      obtain ⟨dd, hmem, hsrc, _⟩ := (mem_offendingDates _ v).mp hv
      exact hall dd hmem hsrc
    refine ⟨summarize (weeklyPerDay completed sM aggM), ?_, rfl, ?_, ?_, rfl⟩
    · unfold weeklyAggregate
      rw [if_pos (by rw [hnil]; rfl)]
    · show (weeklyPerDay completed sM aggM).foldl
        (fun s dd => s + dd.consumedCalories) 0 = _
      rw [foldl_add_eq_sum, zero_add]
    · show (weeklyPerDay completed sM aggM).foldl
        (fun s dd => s + dd.burnedCalories) 0 = _
      rw [foldl_add_eq_sum, zero_add]

/-- Concrete instance for the C2 amended theorem: one completed day with a
date and no burn source makes the aggregation return the 503 error. -/
theorem aggregate_fail_fast_amended_w :
    (weeklyAggregate [eW2] [] []).toOption = none ∧
    (reconcileDay eW2 [] []).burnedSource = "none" := by
  obtain ⟨err, herr, -, -⟩ := (aggregate_fail_fast_amended [eW2] [] []).1
    ⟨reconcileDay eW2 [] [], List.mem_singleton.mpr rfl, by decide, by decide⟩
  rw [herr]
  exact ⟨rfl, by decide⟩

theorem insertDesc_mem (s x : String) :
    ∀ l : List String, x ∈ insertDesc s l ↔ x = s ∨ x ∈ l := by
  intro l
  induction l with
  | nil => simp [insertDesc]
  | cons t ts ih =>
    unfold insertDesc
    by_cases h : t < s
    · rw [if_pos h]
      simp [List.mem_cons]
    · rw [if_neg h]
      simp only [List.mem_cons, ih]
      tauto

theorem insertDesc_pairwise (s : String) :
    ∀ l : List String, s ∉ l → List.Pairwise (fun a b => b < a) l →
      List.Pairwise (fun a b => b < a) (insertDesc s l) := by
  intro l
  induction l with
  | nil =>
    intro _ _
    simp [insertDesc]
  | cons t ts ih =>
    intro hns hp
    obtain ⟨hhead, htail⟩ := List.pairwise_cons.mp hp
    unfold insertDesc
    by_cases h : t < s
    · rw [if_pos h]
      refine List.pairwise_cons.mpr ⟨?_, hp⟩
      intro b hb
      rcases List.mem_cons.mp hb with hb | hb
      · rw [hb]; exact h
      · exact lt_trans (hhead b hb) h
    · rw [if_neg h]
      have hne : s ≠ t := fun he => hns (he ▸ List.mem_cons_self t ts)
      have hst : s < t := by
        rcases lt_or_gt_of_ne hne with hlt | hgt
        · exact hlt
        · exact absurd hgt h
      refine List.pairwise_cons.mpr
        ⟨?_, ih (fun hm => hns (List.mem_cons_of_mem t hm)) htail⟩
      intro b hb
      rcases (insertDesc_mem s b ts).mp hb with hb | hb
      · rw [hb]; exact hst
      · exact hhead b hb

theorem sortDesc_mem (x : String) : ∀ l : List String, x ∈ sortDesc l ↔ x ∈ l := by
  intro l
  induction l with
  | nil => simp [sortDesc]
  | cons t ts ih =>
    unfold sortDesc
    rw [insertDesc_mem]
    simp [ih, List.mem_cons]

theorem sortDesc_pairwise :
    ∀ l : List String, l.Nodup → List.Pairwise (fun a b => b < a) (sortDesc l) := by
  intro l
  induction l with
  | nil =>
    intro _
    simp [sortDesc]
  | cons t ts ih =>
    intro h
    obtain ⟨htn, htsn⟩ := List.nodup_cons.mp h
    unfold sortDesc
    exact insertDesc_pairwise t (sortDesc ts)
      (fun hm => htn ((sortDesc_mem t ts).mp hm)) (ih htsn)

theorem uniqStep_mem_of_mem {acc : List String} {s : String} (v : JSValue)
    (hs : s ∈ acc) : s ∈ uniqStep acc v := by
  unfold uniqStep
  cases v with
  | vStr t =>
    dsimp only
    by_cases hf : (isDateFmt (jsTrim t) && !acc.contains (jsTrim t)) = true
    · rw [if_pos hf]
      exact List.mem_append_left _ hs
    · rw [if_neg hf]
      exact hs
  | vNull => exact hs
  | vBool b => exact hs
  | vNum q => exact hs

theorem uniqFold_mem (dates : List JSValue) :
    ∀ (acc : List String) (s : String),
      s ∈ dates.foldl uniqStep acc ↔
        s ∈ acc ∨ (isDateFmt s = true ∧ ∃ t, JSValue.vStr t ∈ dates ∧ jsTrim t = s) := by
  induction dates with
  | nil =>
    intro acc s
    simp
  | cons v rest ih =>
    intro acc s
    rw [List.foldl_cons, ih]
    cases v with
    | vStr t0 =>
      constructor
      · rintro (hs | hrest)
        · unfold uniqStep at hs
          dsimp only at hs
          by_cases hf : (isDateFmt (jsTrim t0) && !acc.contains (jsTrim t0)) = true
          · rw [if_pos hf] at hs
            rcases List.mem_append.mp hs with h | h
            · exact Or.inl h
            · have hts : jsTrim t0 = s := (List.mem_singleton.mp h).symm
              have hfmt : isDateFmt s = true := by
                rw [← hts]
                have hf2 := hf
                rw [Bool.and_eq_true] at hf2
                exact hf2.1
              exact Or.inr ⟨hfmt, t0, List.mem_cons_self _ _, hts⟩
          · rw [if_neg hf] at hs
            exact Or.inl hs
        · obtain ⟨hfmt, t, htmem, hts⟩ := hrest
          exact Or.inr ⟨hfmt, t, List.mem_cons_of_mem _ htmem, hts⟩
      · rintro (hs | ⟨hfmt, t, htmem, hts⟩)
        · exact Or.inl (uniqStep_mem_of_mem _ hs)
        · rcases List.mem_cons.mp htmem with heq | hmem2
          · have ht0 : t = t0 := by
              cases heq
              rfl
            subst ht0
            left
            unfold uniqStep
            dsimp only
            by_cases hc : acc.contains (jsTrim t) = true
            · have hsa : s ∈ acc := by
                rw [← hts]
                exact List.elem_iff.mp hc
              by_cases hf : (isDateFmt (jsTrim t) && !acc.contains (jsTrim t)) = true
              · rw [if_pos hf]
                exact List.mem_append_left _ hsa
              · rw [if_neg hf]
                exact hsa
            · have hf : (isDateFmt (jsTrim t) && !acc.contains (jsTrim t)) = true := by
                rw [Bool.and_eq_true]
                refine ⟨by rw [hts]; exact hfmt, ?_⟩
                simp [Bool.not_eq_true] at hc ⊢
                exact hc
              rw [if_pos hf]
              exact List.mem_append_right _ (by rw [hts]; exact List.mem_singleton.mpr rfl)
          · exact Or.inr ⟨hfmt, t, hmem2, hts⟩
    | vNull => simp [uniqStep]
    | vBool b => simp [uniqStep]
    | vNum q => simp [uniqStep]

theorem uniqFold_nodup (dates : List JSValue) :
    ∀ acc : List String, acc.Nodup → (dates.foldl uniqStep acc).Nodup := by
  induction dates with
  | nil =>
    intro acc h
    exact h
  | cons v rest ih =>
    intro acc hacc
    rw [List.foldl_cons]
    apply ih
    unfold uniqStep
    cases v with
    | vStr t0 =>
      dsimp only
      by_cases hf : (isDateFmt (jsTrim t0) && !acc.contains (jsTrim t0)) = true
      · rw [if_pos hf]
        have hnotin : jsTrim t0 ∉ acc := by
          have hf2 := hf
          rw [Bool.and_eq_true] at hf2
          intro hm
          have hc : acc.contains (jsTrim t0) = true := List.elem_iff.mpr hm
          rw [hc] at hf2
          simp at hf2
        refine List.nodup_append.mpr ⟨hacc, List.nodup_singleton _, ?_⟩
        intro a ha hb
        rw [List.mem_singleton.mp hb] at ha
        exact hnotin ha
      · rw [if_neg hf]
        exact hacc
    | vNull => exact hacc
    | vBool b => exact hacc
    | vNum q => exact hacc

/-- C10. normalizeDates keeps exactly the strings whose trim matches the
date pattern, collapses duplicates, sorts strictly descending; and with an
empty normalized list the scrape returns an empty array before loading
credentials or creating a browser session. -/
theorem normalize_dates_spec (dates : List JSValue) (env : ScrapeEnv) :
    (∀ s ∈ normalizeDates dates, isDateFmt s = true) ∧
    List.Pairwise (fun a b => b < a) (normalizeDates dates) ∧
    (∀ s : String, s ∈ normalizeDates dates ↔
      (isDateFmt s = true ∧ ∃ t, JSValue.vStr t ∈ dates ∧ jsTrim t = s)) ∧
    (normalizeDates dates = [] →
      (scrapeEnergySummaryForDates dates env).result = .ok [] ∧
      (scrapeEnergySummaryForDates dates env).credentialsLoaded = false ∧
      (scrapeEnergySummaryForDates dates env).browserCreated = false) := by
  have hmem : ∀ s : String, s ∈ normalizeDates dates ↔
      (isDateFmt s = true ∧ ∃ t, JSValue.vStr t ∈ dates ∧ jsTrim t = s) := by
    intro s
    unfold normalizeDates uniqDates
    rw [sortDesc_mem, uniqFold_mem]
    simp
  refine ⟨fun s hs => ((hmem s).mp hs).1, ?_, hmem, ?_⟩
  · unfold normalizeDates uniqDates
    exact sortDesc_pairwise _ (uniqFold_nodup dates [] List.nodup_nil)
  · intro hnil
    unfold scrapeEnergySummaryForDates
    rw [hnil]
    exact ⟨rfl, rfl, rfl⟩

/-- Concrete instance for the C10 theorem: an invalid date string is
discarded, so the scrape returns empty without touching credentials or a
browser. -/
theorem normalize_dates_spec_w :
    (scrapeEnergySummaryForDates [JSValue.vStr "not-a-date"] envC10).result = .ok [] ∧
    (scrapeEnergySummaryForDates [JSValue.vStr "not-a-date"] envC10).credentialsLoaded =
      false ∧
    (scrapeEnergySummaryForDates [JSValue.vStr "not-a-date"] envC10).browserCreated =
      false :=
  (normalize_dates_spec [JSValue.vStr "not-a-date"] envC10).2.2.2 (by decide)

end CronoApi
